import Mathlib

/-!
Shallow embedding of the computational core of `pipinfo` (src/pipinfo/library.py):
the legacy requirements parser `process_requires_file`, the metadata-record
scanning loop of `get_info_from_site_packages_dir`, the requirement-line
triple extraction they share, and the reverse-dependency closure engine
`get_packages_required_by` together with `is_package_required`.

Strings are embedded as `List Char` (Python `str`), Python dicts as
insertion-ordered association lists, and the file/directory I/O of the source
stays with the caller: each embedded function receives the raw lines the
Python code would have read.  Python code that can raise (the source
interpolates extracted dependency names into regex patterns without
`re.escape`, so `re.compile` can fail) is embedded in `Except ReFail`.
-/

namespace Pipinfo

/-- Whitespace removed by Python `str.strip` (the kinds occurring in metadata lines). -/
def isWs (c : Char) : Bool :=
  c = ' ' || c = '\t' || c = '\n' || c = '\r'

/-- Python `line.strip()`. -/
def trimWs (l : List Char) : List Char :=
  ((l.dropWhile isWs).reverse.dropWhile isWs).reverse

/-- The separator class of `re.sub(r"[ ;!~<=>].*$", "", line)` (library.py:75 and,
without the redundant `$`, library.py:167). -/
def isSpecial (c : Char) : Bool :=
  c = ' ' || c = ';' || c = '!' || c = '~' || c = '<' || c = '=' || c = '>'

/-- The extracted dependency token: the line truncated at the first separator
character (library.py:75, 167). -/
def takeUntilSpecial (l : List Char) : List Char :=
  l.takeWhile (fun c => !isSpecial c)

/-- Stripping a leading `" *;* *"` (spaces, then semicolons, then spaces, each
greedy), the tail of the condition-extraction patterns at library.py:77-79
and 169-171. -/
def stripSeps (l : List Char) : List Char :=
  ((l.dropWhile (fun c => c = ' ')).dropWhile (fun c => c = ';')).dropWhile (fun c => c = ' ')

/-- The suffix of `l` after the last occurrence of `c`, if `c` occurs. -/
def afterLastChar (c : Char) : List Char → Option (List Char)
  | [] => none
  | x :: rest =>
    match afterLastChar c rest with
    | some r => some r
    | none => if x = c then some rest else none

/-- `re.sub(r"^.*] *;* *", "", line)` (library.py:77, 169): the greedy `.*]`
reaches the last `]` of the line, then spaces/semicolons/spaces are consumed;
when the line has no `]` the pattern does not match and the line is unchanged. -/
def condAfterLastRBracket (l : List Char) : List Char :=
  match afterLastChar ']' l with
  | some r => stripSeps r
  | none => l

/-- `re.sub(r".*\[", "", dep)` followed by `re.sub(r"].*", "", ·)`
(library.py:532-533, 587-588): the text between the last `[` of `dep` and the
first `]` after it (to the end of `dep` when no `]` follows). -/
def extraOf (dep : List Char) : List Char :=
  (match afterLastChar '[' dep with
   | some r => r
   | none => dep).takeWhile (fun c => c ≠ ']')

/-- `re.sub(r"\[.*", "", dep)` (library.py:534, 589): truncate at the first `[`. -/
def stripBr (dep : List Char) : List Char :=
  dep.takeWhile (fun c => c ≠ '[')

/-- Helper for `splitOnChar`: `acc` holds the current field reversed. -/
def splitOnCharAux (sep : Char) (acc : List Char) : List Char → List (List Char)
  | [] => [acc.reverse]
  | c :: rest =>
    if c = sep then acc.reverse :: splitOnCharAux sep [] rest
    else splitOnCharAux sep (c :: acc) rest

/-- Python `s.split(sep)` for a one-character separator; in particular splitting
the empty string yields one empty field, as in Python. -/
def splitOnChar (sep : Char) (l : List Char) : List (List Char) :=
  splitOnCharAux sep [] l

/-- `extra.split(',')` (library.py:536, 591). -/
def splitComma (l : List Char) : List (List Char) :=
  splitOnChar ',' l

/-- Outcome class of an embedded `re.sub` whose pattern interpolates extracted
text without `re.escape` (library.py:79, 171, 178), and of the `+=` type
confusion of the legacy parser:
`raised` marks inputs on which the Python call certainly raises (a pattern
whose `re.compile` fails, or a `TypeError` from dict + str);
`unmodelled` marks interpolations that are not literal but that this embedding
does not evaluate — Python then either rewrites the string in a
pattern-specific way (e.g. an alternation or a quantifier) or raises for some
of them (e.g. a bad escape) — no theorem below asserts anything about this
constructor beyond its being distinct from success. -/
inductive ReFail where
  | raised : ReFail
  | unmodelled : ReFail
deriving DecidableEq, Repr

/-- A value stored under a dependency key.  `process_requires_file` initializes
a fresh entry to an empty dict (library.py:87, 102) and only later overwrites it
with a condition string, so at runtime a stored value is either a string or
that empty-dict placeholder. -/
inductive CondVal where
  | str : List Char → CondVal
  | emptyDict : CondVal
deriving DecidableEq, Repr

/-- Equality of embedded fallible results is decidable, so concrete runs can be
checked by evaluation. -/
instance {ε α : Type} [DecidableEq ε] [DecidableEq α] : DecidableEq (Except ε α) :=
  fun x y =>
  match x, y with
  | .error e, .error e' =>
    if h : e = e' then .isTrue (congrArg Except.error h)
    else .isFalse (fun hh => h (Except.error.inj hh))
  | .ok a, .ok a' =>
    if h : a = a' then .isTrue (congrArg Except.ok h)
    else .isFalse (fun hh => h (Except.ok.inj hh))
  | .error _, .ok _ => .isFalse (fun hh => Except.noConfusion hh)
  | .ok _, .error _ => .isFalse (fun hh => Except.noConfusion hh)

/-- Instance search does not find this nested product on its own. -/
instance :
    DecidableEq
      (List (List Char × CondVal) × List (List Char × List (List Char × CondVal))) :=
  instDecidableEqProd

/-- Python truthiness of a stored value: the empty dict and the empty string are
falsy. -/
def CondVal.truthy : CondVal → Bool
  | .str s => !s.isEmpty
  | .emptyDict => false

/-- `v += ";" + c` on a stored value (library.py:83, 98, ...).  When the stored
value is the empty-dict placeholder Python raises `TypeError` (dict + str),
modelled as `ReFail.raised`. -/
def CondVal.appendCond (v : CondVal) (c : List Char) : Except ReFail CondVal :=
  match v with
  | .str s => .ok (.str (s ++ ';' :: c))
  | .emptyDict => .error .raised

/-- Lookup in an insertion-ordered association list (Python dict read). -/
def alGet {β : Type} : List (List Char × β) → List Char → Option β
  | [], _ => none
  | (k', v) :: rest, k => if k' = k then some v else alGet rest k

/-- Python dict write: replace the value of an existing key in place, otherwise
append the new key at the end (insertion order). -/
def alSet {β : Type} : List (List Char × β) → List Char → β → List (List Char × β)
  | [], k, v => [(k, v)]
  | (k', v') :: rest, k, v =>
    if k' = k then (k', v) :: rest else (k', v') :: alSet rest k v

/-- Python `del d[k]`. -/
def alRemove {β : Type} : List (List Char × β) → List Char → List (List Char × β)
  | [], _ => []
  | (k', v') :: rest, k =>
    if k' = k then rest else (k', v') :: alRemove rest k

/-- Characters on which `"^" + dep + " *;* *"` stops behaving as the literal
prefix `dep` when `dep` is interpolated unescaped (library.py:79, 171).
`.`, `]` and the closing brace are not listed: in this anchored pattern, over a
subject that carries `dep` verbatim as its prefix, `.` matches exactly the
character it was copied from and `]` and the closing brace are literal pattern
atoms, so the substitution still strips the literal prefix. -/
def rePrefixMeta (c : Char) : Bool :=
  c = Char.ofNat 92 || c = '^' || c = '$' || c = '*' || c = '+' || c = '?' ||
  c = Char.ofNat 123 || c = '(' || c = ')' || c = '|' || c = '['

/-- True when interpolating `l` after the `^` anchor keeps the pattern an exact
literal-prefix strip. -/
def reLiteral (l : List Char) : Bool :=
  l.all (fun c => !rePrefixMeta c)

/-- Plain count balance of round parentheses. -/
def parensOkAux : Nat → List Char → Bool
  | depth, [] => depth = 0
  | depth, c :: r =>
    if c = '(' then parensOkAux (depth + 1) r
    else if c = ')' then
      match depth with
      | 0 => false
      | d + 1 => parensOkAux d r
    else parensOkAux depth r

/-- True when the round parentheses of `l` balance by count. -/
def parensOk (l : List Char) : Bool :=
  parensOkAux 0 l

/-- Classification of the interpolated pattern `"^" + dep + " *;* *"`
(library.py:79, 171): `none` when `dep` is literal (the substitution is then an
exact prefix strip); `some .raised` when the pattern certainly fails to compile
— count-unbalanced round parentheses with no backslash that could escape one
and no `[` that could absorb one into a character class make `re.compile`
raise (`missing )` / `unbalanced parenthesis`); `some .unmodelled` for the
remaining non-literal interpolations, whose outcome the embedding does not
determine. -/
def depPatternFail (dep : List Char) : Option ReFail :=
  if reLiteral dep then none
  else if dep.all (fun c => c ≠ Char.ofNat 92 && c ≠ '[') && !parensOk dep then some .raised
  else some .unmodelled

/-- `re.sub(r"^" + dep + " *;* *", "", line)` (library.py:79, 171), where `dep`
is by construction a prefix of `line`: for a literal `dep`, drop the prefix and
strip the separators; otherwise fail with the classification of
`depPatternFail`. -/
def stripDepConds (dep l : List Char) : Except ReFail (List Char) :=
  match depPatternFail dep with
  | none => .ok (stripSeps (l.drop dep.length))
  | some e => .error e

/-- Characters on which the unanchored marker pattern
`" *;* *extra == ." + extra + ". *"` (library.py:178) stops behaving as a
literal occurrence search for the interpolated extra name.  Unlike the
anchored prefix pattern, `.` is special here (the pattern floats over the
whole condition string, so a wildcard can match positions the literal name
would not); `]` and the closing brace remain literal atoms. -/
def reMarkerMeta (c : Char) : Bool :=
  rePrefixMeta c || c = '.'

/-- True when interpolating `x` into the marker pattern keeps it a literal
occurrence search. -/
def reMarkerLiteral (x : List Char) : Bool :=
  x.all (fun c => !reMarkerMeta c)

/-- Classification of the interpolated marker pattern (library.py:178), with
the same three-way reading as `depPatternFail`. -/
def markerPatternFail (x : List Char) : Option ReFail :=
  if reMarkerLiteral x then none
  else if x.all (fun c => c ≠ Char.ofNat 92 && c ≠ '[') && !parensOk x then some .raised
  else some .unmodelled

/-- `re.sub(r"^ *\[", "", line)` (library.py:62). -/
def stripHeaderOpen (l : List Char) : List Char :=
  match l.dropWhile (fun c => c = ' ') with
  | '[' :: rest => rest
  | _ => l

/-- `re.sub(r"\] *$", "", line)` (library.py:63). -/
def stripHeaderClose (l : List Char) : List Char :=
  match l.reverse.dropWhile (fun c => c = ' ') with
  | ']' :: rest => rest.reverse
  | _ => l

/-- Mutable state of the `process_requires_file` line loop: the two mappings
being built plus the active extra name and extra-level condition
(library.py:53-54). -/
structure ReqState where
  requires : List (List Char × CondVal)
  extras : List (List Char × List (List Char × CondVal))
  extra : List Char
  extraConds : List Char
deriving DecidableEq, Repr

/-- Filing one requirement into a requires-style mapping, with the
concatenate-on-repeat merge and the empty-dict initialization
(library.py:81-94 for an extras entry, identically 96-109 for `requires`).
Fails when `+=` hits the empty-dict placeholder (Python `TypeError`). -/
def fileLegacy (m : List (List Char × CondVal)) (dep conds extraConds : List Char) :
    Except ReFail (List (List Char × CondVal)) :=
  match alGet m dep with
  | some v => do
    let v ← if conds.isEmpty then pure v else v.appendCond conds
    let v ← if extraConds.isEmpty then pure v else v.appendCond extraConds
    pure (alSet m dep v)
  | none =>
    let v0 : CondVal := if conds.isEmpty then .emptyDict else .str conds
    if extraConds.isEmpty then .ok (alSet m dep v0)
    else if v0.truthy then do
      let v ← v0.appendCond extraConds
      pure (alSet m dep v)
    else .ok (alSet m dep (.str extraConds))

/-- One line of the `process_requires_file` loop (library.py:55-109). -/
def legacyStep (st : ReqState) (rawLine : List Char) : Except ReFail ReqState :=
  let line := trimWs rawLine
  if line.isEmpty then .ok st
  else if line.head? = some '[' then
    let h := stripHeaderClose (stripHeaderOpen line)
    let parts := splitOnChar ':' h
    let extra := parts.headD []
    let extraConds := if parts.length > 1 then parts.getD 1 [] else []
    let extras :=
      if !extra.isEmpty && (alGet st.extras extra).isNone then alSet st.extras extra []
      else st.extras
    .ok { st with extra := extra, extraConds := extraConds, extras := extras }
  else
    let dep := takeUntilSpecial line
    do
      let conds ←
        if '[' ∈ dep then pure (condAfterLastRBracket line) else stripDepConds dep line
      if st.extra.isEmpty then
        let req ← fileLegacy st.requires dep conds st.extraConds
        pure { st with requires := req }
      else
        let inner := (alGet st.extras st.extra).getD []
        let inner ← fileLegacy inner dep conds st.extraConds
        pure { st with extras := alSet st.extras st.extra inner }

/-- The line-processing loop of `process_requires_file` (library.py:47-114),
lifted over the raw lines of a `requires.txt` file (reading the file stays with
the caller); returns the merged requires/extras mappings. -/
def process_requires_file (lines : List (List Char))
    (requires0 : List (List Char × CondVal))
    (extras0 : List (List Char × List (List Char × CondVal))) :
    Except ReFail
      (List (List Char × CondVal) × List (List Char × List (List Char × CondVal))) := do
  let st ← lines.foldlM legacyStep ⟨requires0, extras0, [], []⟩
  pure (st.requires, st.extras)

/-- The single-quote character (written by code point to keep sources plain). -/
def squoteChar : Char := Char.ofNat 39

/-- The double-quote character. -/
def dquoteChar : Char := Char.ofNat 34

/-- The literal `"extra == "` marker (library.py:173-174). -/
def extraMarker : List Char := "extra == ".data

/-- One attempted match of the pattern `" *;* *extra == .NAME. *"`
(library.py:178) at the head of `s`, for a regex-literal `NAME`; each `.`
consumes exactly one character; returns the rest after the match. -/
def matchMarkerAt (x s : List Char) : Option (List Char) :=
  let s1 := ((s.dropWhile (fun c => c = ' ')).dropWhile (fun c => c = ';')).dropWhile
    (fun c => c = ' ')
  if extraMarker.isPrefixOf s1 then
    match s1.drop 9 with
    | [] => none
    | _ :: s2 =>
      if x.isPrefixOf s2 then
        match s2.drop x.length with
        | [] => none
        | _ :: s3 => some (s3.dropWhile (fun c => c = ' '))
      else none
  else none

/-- Helper for `replaceMarker`; the budget starts at the string length and every
step consumes at least one character, so it never runs out. -/
def replaceMarkerAux (x : List Char) : Nat → List Char → List Char
  | _, [] => []
  | 0, s => s
  | fuel + 1, c :: rest =>
    match matchMarkerAt x (c :: rest) with
    | some r => ';' :: replaceMarkerAux x fuel r
    | none => c :: replaceMarkerAux x fuel rest

/-- `re.sub(r" *;* *extra == ." + extra + ". *", ";", conds)` for a
regex-literal extra name (library.py:178-179): replace every non-overlapping
leftmost match by a semicolon. -/
def replaceMarker (x s : List Char) : List Char :=
  replaceMarkerAux x s.length s

/-- One attempted match of `" *and *;"` (library.py:180) at the head of `s`. -/
def matchAndSemiAt (s : List Char) : Option (List Char) :=
  let s1 := s.dropWhile (fun c => c = ' ')
  if ("and".data).isPrefixOf s1 then
    match (s1.drop 3).dropWhile (fun c => c = ' ') with
    | ';' :: r => some r
    | _ => none
  else none

/-- Helper for `replAndSemi`. -/
def replAndSemiAux : Nat → List Char → List Char
  | _, [] => []
  | 0, s => s
  | fuel + 1, c :: rest =>
    match matchAndSemiAt (c :: rest) with
    | some r => replAndSemiAux fuel r
    | none => c :: replAndSemiAux fuel rest

/-- `re.sub(r" *and *;", "", conds)` (library.py:180). -/
def replAndSemi (s : List Char) : List Char :=
  replAndSemiAux s.length s

/-- One attempted match of `";and *"` (library.py:181) at the head of `s`. -/
def matchSemiAndAt (s : List Char) : Option (List Char) :=
  match s with
  | ';' :: r =>
    if ("and".data).isPrefixOf r then some ((r.drop 3).dropWhile (fun c => c = ' '))
    else none
  | _ => none

/-- Helper for `replSemiAnd`. -/
def replSemiAndAux : Nat → List Char → List Char
  | _, [] => []
  | 0, s => s
  | fuel + 1, c :: rest =>
    match matchSemiAndAt (c :: rest) with
    | some r => ';' :: replSemiAndAux fuel r
    | none => c :: replSemiAndAux fuel rest

/-- `re.sub(r";and *", ";", conds)` (library.py:181). -/
def replSemiAnd (s : List Char) : List Char :=
  replSemiAndAux s.length s

/-- `re.sub(r";$", "", conds)` (library.py:182). -/
def dropTrailSemi (s : List Char) : List Char :=
  match s.reverse with
  | ';' :: r => r.reverse
  | _ => s

/-- Helper for `splitMarker`. -/
def splitMarkerAux : Nat → List Char → List Char → List (List Char)
  | _, acc, [] => [acc.reverse]
  | 0, acc, s => [acc.reverse ++ s]
  | fuel + 1, acc, c :: rest =>
    if extraMarker.isPrefixOf (c :: rest) then
      acc.reverse :: splitMarkerAux fuel [] ((c :: rest).drop 9)
    else splitMarkerAux fuel (c :: acc) rest

/-- Python `conds.split("extra == ")` (library.py:174). -/
def splitMarker (s : List Char) : List (List Char) :=
  splitMarkerAux s.length [] s

/-- Substring test (Python `in` on strings, library.py:173). -/
def isInfixL (pat : List Char) : List Char → Bool
  | [] => pat.isPrefixOf ([] : List Char)
  | c :: rest => pat.isPrefixOf (c :: rest) || isInfixL pat rest

/-- The fields of one package record built by `get_info_from_site_packages_dir`
(library.py:146-150) that the scanning loop fills; the directory/type fields are
caller-supplied I/O context and stay outside the core. -/
structure PkgInfo where
  name : List Char
  version : List Char
  summary : List Char
  requires : List (List Char × CondVal)
  extras : List (List Char × List (List Char × CondVal))
deriving DecidableEq, Repr

/-- Metadata-record filing of one dependency under one extra
(library.py:184-190). -/
def fileMetaExtra (extras : List (List Char × List (List Char × CondVal)))
    (extraN dep conds : List Char) :
    Except ReFail (List (List Char × List (List Char × CondVal))) :=
  let extras :=
    if (alGet extras extraN).isNone then alSet extras extraN [] else extras
  let inner := (alGet extras extraN).getD []
  match alGet inner dep with
  | some v =>
    if conds.isEmpty then .ok extras
    else do
      let v' ← v.appendCond conds
      pure (alSet extras extraN (alSet inner dep v'))
  | none => .ok (alSet extras extraN (alSet inner dep (.str conds)))

/-- Handling of one `Requires-Dist:` line body (library.py:166-196): extract the
dependency token and condition tail, then file either under the extras named by
`extra == "..."` markers (stripping each marker from the running condition
string) or under plain requires with the concatenate-on-repeat merge. -/
def processRequiresDist (l : List Char) (req : List (List Char × CondVal))
    (ext : List (List Char × List (List Char × CondVal))) :
    Except ReFail
      (List (List Char × CondVal) × List (List Char × List (List Char × CondVal))) := do
  let dep := takeUntilSpecial l
  let conds0 ←
    if '[' ∈ dep then pure (condAfterLastRBracket l) else stripDepConds dep l
  if isInfixL extraMarker l then
    let pieces := (splitMarker conds0).drop 1
    let r ← pieces.foldlM
      (fun (acc : List Char × List (List Char × List (List Char × CondVal))) part => do
        let extraN := (part.drop 1).takeWhile (fun c => c ≠ squoteChar && c ≠ dquoteChar)
        match markerPatternFail extraN with
        | none =>
          let conds := dropTrailSemi (replSemiAnd (replAndSemi (replaceMarker extraN acc.1)))
          let extras ← fileMetaExtra acc.2 extraN dep conds
          pure (conds, extras)
        | some e => throw e)
      (conds0, ext)
    pure (req, r.2)
  else
    match alGet req dep with
    | some v =>
      if conds0.isEmpty then pure (req, ext)
      else do
        let v' ← v.appendCond conds0
        pure (alSet req dep v', ext)
    | none => pure (alSet req dep (.str conds0), ext)

/-- Tag of a `Name:` field (library.py:156-157). -/
def nameTag : List Char := "Name: ".data

/-- Tag of a `Version:` field (library.py:158-159). -/
def versionTag : List Char := "Version: ".data

/-- Tag of a `Summary:` field (library.py:160-161). -/
def summaryTag : List Char := "Summary: ".data

/-- Tag of a `Requires-Dist:` field (library.py:163-166). -/
def requiresDistTag : List Char := "Requires-Dist: ".data

/-- The field tags the scanner recognizes and skips (library.py:153-155 and
197-230); each is only logged, so checking them together after the four
value-bearing tags is order-equivalent to the source's `elif` chain (no line
matches two different tags). -/
def passTags : List (List Char) :=
  ["Metadata-Version: ".data, "Home-page: ".data, "Project-URL: ".data,
   "Download-URL: ".data, "Author: ".data, "Author-email: ".data,
   "Maintainer: ".data, "Maintainer-email: ".data, "License: ".data,
   "License-Expression: ".data, "License-File: ".data, "Platform: ".data,
   "Requires-Python: ".data, "Keywords: ".data, "Classifier: ".data,
   "Description-Content-Type: ".data, "Provides: ".data, "Provides-Extra: ".data]

/-- Result of scanning one metadata line: continue, stop at the blank line
(library.py:231-233), or propagate a regex/type failure. -/
inductive MStep where
  | cont : PkgInfo → MStep
  | stop : PkgInfo → MStep
  | fail : ReFail → MStep

/-- One line of the metadata scanning loop (library.py:151-235).  Unrecognized
non-blank lines are only logged (library.py:234-235) and scanning continues. -/
def metaLineStep (st : PkgInfo) (rawLine : List Char) : MStep :=
  let line := trimWs rawLine
  if nameTag.isPrefixOf line then .cont { st with name := line.drop 6 }
  else if versionTag.isPrefixOf line then .cont { st with version := line.drop 9 }
  else if summaryTag.isPrefixOf line then .cont { st with summary := line.drop 9 }
  else if requiresDistTag.isPrefixOf line then
    match processRequiresDist (line.drop 15) st.requires st.extras with
    | .ok (req, ext) => .cont { st with requires := req, extras := ext }
    | .error e => .fail e
  else if passTags.any (fun t => t.isPrefixOf line) then .cont st
  else if line.isEmpty then .stop st
  else .cont st

/-- The scanning loop over the lines of one metadata record. -/
def metaLinesAux : List (List Char) → PkgInfo → Except ReFail PkgInfo
  | [], st => .ok st
  | l :: rest, st =>
    match metaLineStep st l with
    | .cont st' => metaLinesAux rest st'
    | .stop st' => .ok st'
    | .fail e => .error e

/-- The metadata-scanning loop of `get_info_from_site_packages_dir`
(library.py:146-238), lifted over the raw lines of one METADATA/PKG-INFO file;
directory walking, deduplication and the egg-info requires.txt merge stay with
the caller. -/
def parse_metadata_lines (lines : List (List Char)) : Except ReFail PkgInfo :=
  metaLinesAux lines ⟨[], [], [], [], []⟩

/-- The requirement-line triple of spec §4.1, assembled from the dependency and
condition extraction shared by the two metadata readers (library.py:75-79,
167-171) and the embedded-extras split of the closure engine
(library.py:531-536): dependency name, requested extras, condition tail.
The bracket branch uses only fixed patterns and always succeeds; the
bracket-free branch fails, with the classification of `depPatternFail`, exactly
when it would interpolate a non-literal pattern. -/
def parse_requirement (l : List Char) :
    Except ReFail (List Char × List (List Char) × List Char) :=
  let rd := takeUntilSpecial l
  if '[' ∈ rd then .ok (stripBr rd, splitComma (extraOf rd), condAfterLastRBracket l)
  else
    match stripDepConds rd l with
    | .ok c => .ok (rd, [], c)
    | .error e => .error e

/-- The §4.1 output exactly as the spec words it, for comparison with
`parse_requirement`: the name stops at the first of the eight listed
characters; the requested extras come from the first bracket group immediately
after the name; the condition tail is everything after the name, or after that
group's closing bracket, with leading separators stripped. -/
def specRequirementTriple (l : List Char) : List Char × List (List Char) × List Char :=
  let nm := l.takeWhile (fun c => !isSpecial c && c ≠ '[')
  match l.drop nm.length with
  | '[' :: rest =>
    let grp := rest.takeWhile (fun c => c ≠ ']')
    (nm, splitComma grp, stripSeps (rest.drop (grp.length + 1)))
  | rest => (nm, [], stripSeps rest)

/-- A package as read by the closure engine.  `get_packages_required_by`
iterates only the keys of the requires mapping (library.py:528) and of each
extras entry (library.py:583), so a package is embedded by its name and those
insertion-ordered key lists. -/
structure Pkg where
  name : List Char
  requires : List (List Char)
  extras : List (List Char × List (List Char))
deriving DecidableEq, Repr

/-- `s.lower()` (library.py:527, 529, ...). -/
def lowerAll (l : List Char) : List Char :=
  l.map Char.toLower

/-- The pending-extras work map: lowercased target package name to the list of
extra names requested for it (library.py:523, 536-541). -/
abbrev QMap := List (List Char × List (List Char))

/-- The reverse-dependency index being built: lowercased dependency name to the
list of lowercased requirer names (library.py:522). -/
abbrev RBMap := List (List Char × List (List Char))

/-- State of the closure engine: pending extras map and required-by index. -/
structure CState where
  q : QMap
  rb : RBMap
deriving DecidableEq, Repr

/-- Append `part` to the pending entry of `dep` unless already present,
creating the entry if absent (library.py:537-541, 592-596). -/
def addPart (q : QMap) (dep part : List Char) : QMap :=
  match alGet q dep with
  | some ps => if part ∈ ps then q else alSet q dep (ps ++ [part])
  | none => alSet q dep [part]

/-- The `for part in extra.split(',')` enqueue loop (library.py:536-541). -/
def enqueueParts (q : QMap) (dep : List Char) (parts : List (List Char)) : QMap :=
  parts.foldl (fun q p => addPart q dep p) q

/-- Record `n` as a requirer of `dep` unless already present
(library.py:567-571, 598-602). -/
def recordReq (rb : RBMap) (dep n : List Char) : RBMap :=
  match alGet rb dep with
  | some ns => if n ∈ ns then rb else alSet rb dep (ns ++ [n])
  | none => alSet rb dep [n]

/-- The canonical index key of a raw dependency string: lowercased, and
truncated at the first `[` when it carries a bracket group (library.py:529-534). -/
def depKey (d : List Char) : List Char :=
  let dl := lowerAll d
  if '[' ∈ dl then stripBr dl else dl

/-- Handle one dependency occurrence on behalf of requirer `n`: enqueue any
embedded extras and record the requirer relationship.  This is the loop body at
library.py:528-541, 567-571, repeated verbatim at library.py:583-596, 598-602
with the target's own lowercased name as `n`. -/
def procDep (n : List Char) (st : CState) (d : List Char) : CState :=
  let dl := lowerAll d
  if '[' ∈ dl then
    { q := enqueueParts st.q (stripBr dl) (splitComma (extraOf dl)),
      rb := recordReq st.rb (stripBr dl) n }
  else { q := st.q, rb := recordReq st.rb dl n }

/-- Fold `procDep` over the dependency keys of one mapping. -/
def procDeps (n : List Char) (deps : List (List Char)) (st : CState) : CState :=
  deps.foldl (procDep n) st

/-- The live iteration `for extra in value` over the pending list of key `k`
while expanding package `p` (library.py:581-602).  `i` is the position reached;
the list is re-read from the state at every step, matching Python's iteration
over a list object that can grow while it is being walked (an enqueue for `k`
itself extends `value` mid-iteration).  Recursion is on an explicit step
budget, consumed only when an element is actually processed. -/
def procValue (p : Pkg) (k : List Char) : Nat → Nat → CState → Option CState
  | fuel, i, st =>
    let v := (alGet st.q k).getD []
    if i < v.length then
      match fuel with
      | 0 => none
      | f + 1 =>
        let e := v.getD i []
        let st' :=
          match alGet p.extras e with
          | some deps => procDeps k deps st
          | none => st
        procValue p k f (i + 1) st'
    else some st

/-- The `for package in packages` scan of one drain iteration
(library.py:578-602): every package whose lowercased name equals the pending
key expands the requested extras. -/
def procPkgs (k : List Char) (fuel : Nat) : List Pkg → CState → Option CState
  | [], st => some st
  | p :: rest, st =>
    if lowerAll p.name = k then
      match procValue p k fuel 0 st with
      | some st' => procPkgs k fuel rest st'
      | none => none
    else procPkgs k fuel rest st

/-- The `while extras:` drain (library.py:574-604): take the first pending key,
expand it against every matching package, then delete the key.  `fuel` bounds
the number of loop iterations and the steps of each inner live iteration;
`none` means the budget was exhausted before the queue emptied. -/
def loopQ (packages : List Pkg) : Nat → CState → Option RBMap
  | fuel, st =>
    match st.q with
    | [] => some st.rb
    | (k, _) :: _ =>
      match fuel with
      | 0 => none
      | f + 1 =>
        match procPkgs k f packages st with
        | some st' => loopQ packages f ⟨alRemove st'.q k, st'.rb⟩
        | none => none

/-- The direct-requirements pass of `get_packages_required_by`
(library.py:526-571). -/
def phase1 (packages : List Pkg) : CState :=
  packages.foldl (fun st p => procDeps (lowerAll p.name) p.requires st) ⟨[], []⟩

/-- `get_packages_required_by` (library.py:520-606), with an explicit iteration
budget for the drain loop; `none` means the loop had not finished within
`fuel` iterations. -/
def get_packages_required_by (fuel : Nat) (packages : List Pkg) : Option RBMap :=
  loopQ packages fuel (phase1 packages)

/-- The requirer list recorded for key `k` (empty when `k` is absent). -/
def rbEntry (rb : RBMap) (k : List Char) : List (List Char) :=
  (alGet rb k).getD []

/-- `is_package_required` (library.py:610-612). -/
def is_package_required (p : Pkg) (rb : RBMap) : Bool :=
  (alGet rb (lowerAll p.name)).isSome

/-- Concrete package list for the closure-transitivity scenario: `a` requires
`b[x]` and `b`'s extra `x` contains `c`. -/
def pkgsC1 : List Pkg :=
  [⟨"a".data, ["b[x]".data], []⟩, ⟨"b".data, [], [("x".data, ["c".data])]⟩]

/-- The index the engine computes for `pkgsC1`. -/
def rbC1 : RBMap :=
  [("b".data, ["a".data]), ("c".data, ["b".data])]

/-- Cyclic-extras package list: `b` requires `c[y]`, `b`'s extra `x` pulls in
`c[y]`, and `c`'s extra `y` pulls in `b[x]`. -/
def pkgsC3 : List Pkg :=
  [⟨"b".data, ["c[y]".data], [("x".data, ["c[y]".data])]⟩,
   ⟨"c".data, [], [("y".data, ["b[x]".data])]⟩]

/-- The stable required-by index the cyclic drain reaches. -/
def rbC3 : RBMap :=
  [("c".data, ["b".data]), ("b".data, ["c".data])]

/-- Drain state with `b[x]` pending (reached after the second iteration
and again after every further pair of iterations). -/
def stA : CState := ⟨[("b".data, ["x".data])], rbC3⟩

/-- Drain state with `c[y]` pending and the stable index. -/
def stB : CState := ⟨[("c".data, ["y".data])], rbC3⟩

/-- The drain's initial state on `pkgsC3` (what `phase1` produces). -/
def stB0 : CState := ⟨[("c".data, ["y".data])], [("c".data, ["b".data])]⟩

/-- The state reached just before deleting key `c` in a drain iteration on
`pkgsC3`. -/
def stMidCB : CState := ⟨[("c".data, ["y".data]), ("b".data, ["x".data])], rbC3⟩

/-- The state reached just before deleting key `b` in a drain iteration on
`pkgsC3`. -/
def stMidBC : CState := ⟨[("b".data, ["x".data]), ("c".data, ["y".data])], rbC3⟩

/-- Package list where `b` is enqueued twice with different extras before being
drained: `a` requires `b[x]`, `d` requires `b[y]`. -/
def pkgsC4 : List Pkg :=
  [⟨"a".data, ["b[x]".data], []⟩, ⟨"d".data, ["b[y]".data], []⟩,
   ⟨"b".data, [], [("x".data, ["p".data]), ("y".data, ["q".data])]⟩]

/-- The index the engine computes for `pkgsC4`: both extras were expanded. -/
def rbC4 : RBMap :=
  [("b".data, ["a".data, "d".data]), ("p".data, ["b".data]), ("q".data, ["b".data])]

/-- The five-line legacy requirements file of the spec's test scenario. -/
def c6lines : List (List Char) :=
  ["pkgA".data, "[extra1]".data, "pkgB>=2.0".data, "[]".data, "pkgC".data]

/-- One-package list whose sole requirement is case-mismatched. -/
def pkgsC7w : List Pkg := [⟨"App".data, ["Lib".data], []⟩]

/-- One-package list with a case-insensitive self-dependency. -/
def pkgsC10w : List Pkg := [⟨"Spam".data, ["spam".data], []⟩]

theorem alGet_alSet_self {β : Type} (l : List (List Char × β)) (k : List Char) (v : β) :
    alGet (alSet l k v) k = some v := by
  induction l with
  | nil => simp [alSet, alGet]
  | cons h t ih =>
    obtain ⟨k', v'⟩ := h
    by_cases hk : k' = k <;> simp [alSet, alGet, hk, ih]

theorem alGet_alSet_other {β : Type} (l : List (List Char × β)) (k k' : List Char)
    (v : β) (h : k ≠ k') : alGet (alSet l k v) k' = alGet l k' := by
  induction l with
  | nil => simp [alSet, alGet, h]
  | cons hd t ih =>
    obtain ⟨k0, v0⟩ := hd
    by_cases hk : k0 = k
    · subst hk
      simp [alSet, alGet, h]
    · simp [alSet, alGet, hk, ih]

theorem mem_rbEntry_recordReq_self (rb : RBMap) (d n : List Char) :
    n ∈ rbEntry (recordReq rb d n) d := by
  unfold recordReq rbEntry
  cases h : alGet rb d with
  | none => simp [alGet_alSet_self]
  | some ns =>
    by_cases hn : n ∈ ns
    · simp [hn, h]
    · simp [hn, alGet_alSet_self]

theorem mem_rbEntry_recordReq_mono (rb : RBMap) (d n k x : List Char)
    (h : x ∈ rbEntry rb k) : x ∈ rbEntry (recordReq rb d n) k := by
  unfold recordReq
  by_cases hk : d = k
  · subst hk
    cases hg : alGet rb d with
    | none => simp [rbEntry, hg] at h
    | some ns =>
      by_cases hn : n ∈ ns
      · simpa [hn, hg]
      · unfold rbEntry at h ⊢
        rw [hg] at h
        simp [hn, alGet_alSet_self]
        exact Or.inl h
  · cases hg : alGet rb d with
    | none => simpa [rbEntry, alGet_alSet_other _ _ _ _ hk]
    | some ns =>
      by_cases hn : n ∈ ns
      · simpa [hn, hg]
      · simpa [hn, rbEntry, alGet_alSet_other _ _ _ _ hk]

theorem procDep_rb (n : List Char) (st : CState) (d : List Char) :
    (procDep n st d).rb = recordReq st.rb (depKey d) n := by
  unfold procDep depKey
  by_cases h : '[' ∈ lowerAll d <;> simp [h]

theorem mem_procDep_self (n : List Char) (st : CState) (d : List Char) :
    n ∈ rbEntry (procDep n st d).rb (depKey d) := by
  rw [procDep_rb]
  exact mem_rbEntry_recordReq_self _ _ _

theorem mem_procDep_mono (n : List Char) (st : CState) (d k x : List Char)
    (h : x ∈ rbEntry st.rb k) : x ∈ rbEntry (procDep n st d).rb k := by
  rw [procDep_rb]
  exact mem_rbEntry_recordReq_mono _ _ _ _ _ h

theorem mem_procDeps_mono (n : List Char) (deps : List (List Char)) :
    ∀ (st : CState) (k x : List Char), x ∈ rbEntry st.rb k →
      x ∈ rbEntry (procDeps n deps st).rb k := by
  induction deps with
  | nil => intro st k x h; simpa [procDeps]
  | cons d t ih =>
    intro st k x h
    simp only [procDeps, List.foldl_cons] at *
    exact ih _ _ _ (mem_procDep_mono _ _ _ _ _ h)

theorem mem_procDeps_self (n : List Char) (deps : List (List Char)) :
    ∀ (st : CState) (d : List Char), d ∈ deps →
      n ∈ rbEntry (procDeps n deps st).rb (depKey d) := by
  induction deps with
  | nil => intro st d h; simp at h
  | cons d0 t ih =>
    intro st d h
    rcases List.mem_cons.mp h with h | h
    · subst h
      simp only [procDeps, List.foldl_cons]
      exact mem_procDeps_mono _ _ _ _ _ (mem_procDep_self _ _ _)
    · simp only [procDeps, List.foldl_cons]
      exact ih _ _ h

theorem mem_procValue_mono (p : Pkg) (kk : List Char) :
    ∀ (fuel i : Nat) (st st' : CState), procValue p kk fuel i st = some st' →
      ∀ (k x : List Char), x ∈ rbEntry st.rb k → x ∈ rbEntry st'.rb k := by
  intro fuel
  induction fuel with
  | zero =>
    intro i st st' h k x hm
    unfold procValue at h
    by_cases hi : i < ((alGet st.q kk).getD []).length
    · simp [hi] at h
    · simp only [hi, if_false, Option.some.injEq] at h
      subst h
      exact hm
  | succ f ih =>
    intro i st st' h k x hm
    unfold procValue at h
    by_cases hi : i < ((alGet st.q kk).getD []).length
    · simp only [hi, if_true] at h
      cases hg : alGet p.extras (((alGet st.q kk).getD []).getD i []) with
      | none =>
        rw [hg] at h
        exact ih _ _ _ h _ _ hm
      | some deps =>
        rw [hg] at h
        exact ih _ _ _ h _ _ (mem_procDeps_mono _ _ _ _ _ hm)
    · simp only [hi, if_false, Option.some.injEq] at h
      subst h
      exact hm

theorem mem_procPkgs_mono (kk : List Char) (fuel : Nat) :
    ∀ (ps : List Pkg) (st st' : CState), procPkgs kk fuel ps st = some st' →
      ∀ (k x : List Char), x ∈ rbEntry st.rb k → x ∈ rbEntry st'.rb k := by
  intro ps
  induction ps with
  | nil =>
    intro st st' h k x hm
    simp [procPkgs] at h
    subst h
    exact hm
  | cons p t ih =>
    intro st st' h k x hm
    unfold procPkgs at h
    by_cases hp : lowerAll p.name = kk
    · simp only [hp, if_true] at h
      cases hv : procValue p kk fuel 0 st with
      | none => rw [hv] at h; simp at h
      | some st1 =>
        rw [hv] at h
        exact ih _ _ h _ _ (mem_procValue_mono _ _ _ _ _ _ hv _ _ hm)
    · simp only [hp, if_false] at h
      exact ih _ _ h _ _ hm

theorem mem_loopQ_mono (ps : List Pkg) :
    ∀ (fuel : Nat) (st : CState) (rb : RBMap), loopQ ps fuel st = some rb →
      ∀ (k x : List Char), x ∈ rbEntry st.rb k → x ∈ rbEntry rb k := by
  intro fuel
  induction fuel with
  | zero =>
    intro st rb h k x hm
    unfold loopQ at h
    cases hq : st.q with
    | nil => rw [hq] at h; simp at h; subst h; exact hm
    | cons a t => rw [hq] at h; simp at h
  | succ f ih =>
    intro st rb h k x hm
    unfold loopQ at h
    cases hq : st.q with
    | nil => rw [hq] at h; simp at h; subst h; exact hm
    | cons a t =>
      obtain ⟨k0, vs⟩ := a
      rw [hq] at h
      dsimp only at h
      cases hp : procPkgs k0 f ps st with
      | none => rw [hp] at h; simp at h
      | some st1 =>
        rw [hp] at h
        exact ih _ _ h _ _ (mem_procPkgs_mono _ _ _ _ _ hp _ _ hm)

theorem mem_phase1_fold_mono (ps : List Pkg) :
    ∀ (st : CState) (k x : List Char), x ∈ rbEntry st.rb k →
      x ∈ rbEntry ((ps.foldl (fun st p => procDeps (lowerAll p.name) p.requires st) st)).rb k := by
  induction ps with
  | nil => intro st k x h; simpa
  | cons p t ih =>
    intro st k x h
    simp only [List.foldl_cons]
    exact ih _ _ _ (mem_procDeps_mono _ _ _ _ _ h)

theorem mem_phase1_fold (ps : List Pkg) :
    ∀ (st : CState) (p : Pkg), p ∈ ps → ∀ d ∈ p.requires,
      lowerAll p.name ∈
        rbEntry ((ps.foldl (fun st p => procDeps (lowerAll p.name) p.requires st) st)).rb
          (depKey d) := by
  induction ps with
  | nil => intro st p h; simp at h
  | cons p0 t ih =>
    intro st p h d hd
    rcases List.mem_cons.mp h with h | h
    · subst h
      simp only [List.foldl_cons]
      exact mem_phase1_fold_mono _ _ _ _ (mem_procDeps_self _ _ _ _ hd)
    · simp only [List.foldl_cons]
      exact ih _ _ h d hd

theorem run_mem (fuel : Nat) (ps : List Pkg) (rb : RBMap)
    (h : get_packages_required_by fuel ps = some rb) (p : Pkg) (hp : p ∈ ps)
    (d : List Char) (hd : d ∈ p.requires) :
    lowerAll p.name ∈ rbEntry rb (depKey d) := by
  unfold get_packages_required_by at h
  exact mem_loopQ_mono ps fuel (phase1 ps) rb h _ _ (mem_phase1_fold ps ⟨[], []⟩ p hp d hd)

theorem mem_rbEntry_isSome (rb : RBMap) (k x : List Char) (h : x ∈ rbEntry rb k) :
    (alGet rb k).isSome := by
  unfold rbEntry at h
  cases hg : alGet rb k with
  | none => rw [hg] at h; simp at h
  | some ns => simp

theorem addPart_eq_recordReq (q : QMap) (d p : List Char) :
    addPart q d p = recordReq q d p := rfl

theorem mem_enqueueParts (dep : List Char) (parts : List (List Char)) :
    ∀ (q : QMap) (x : List Char), x ∈ rbEntry q dep ∨ x ∈ parts →
      x ∈ rbEntry (enqueueParts q dep parts) dep := by
  induction parts with
  | nil =>
    intro q x h
    rcases h with h | h
    · simpa [enqueueParts]
    · simp at h
  | cons p t ih =>
    intro q x h
    have step : enqueueParts q dep (p :: t) = enqueueParts (addPart q dep p) dep t := by
      simp [enqueueParts]
    rw [step]
    rcases h with h | h
    · exact ih _ _ (Or.inl (by
        rw [addPart_eq_recordReq]
        exact mem_rbEntry_recordReq_mono _ _ _ _ _ h))
    · rcases List.mem_cons.mp h with h | h
      · subst h
        exact ih _ _ (Or.inl (by
          rw [addPart_eq_recordReq]
          exact mem_rbEntry_recordReq_self _ _ _))
      · exact ih _ _ (Or.inr h)

theorem procValue_done (p : Pkg) (kk : List Char) (fuel i : Nat) (st : CState)
    (h : ¬ i < ((alGet st.q kk).getD []).length) :
    procValue p kk fuel i st = some st := by
  unfold procValue
  simp [h]

theorem nameUnify (l : List Char) :
    (if '[' ∈ takeUntilSpecial l then stripBr (takeUntilSpecial l) else takeUntilSpecial l)
      = l.takeWhile (fun c => !isSpecial c && c ≠ '[') := by
  induction l with
  | nil => simp [takeUntilSpecial, stripBr]
  | cons c t ih =>
    by_cases hs : isSpecial c
    · simp [takeUntilSpecial, List.takeWhile_cons, hs, stripBr]
    · by_cases hb : c = '['
      · subst hb
        simp [takeUntilSpecial, List.takeWhile_cons, hs, stripBr]
      · have ht : takeUntilSpecial (c :: t) = c :: takeUntilSpecial t := by
          simp [takeUntilSpecial, List.takeWhile_cons, hs]
        rw [ht]
        have hne : ('[' ∈ c :: takeUntilSpecial t) ↔ '[' ∈ takeUntilSpecial t := by
          constructor
          · intro h
            rcases List.mem_cons.mp h with h | h
            · exact absurd h.symm hb
            · exact h
          · intro h
            exact List.mem_cons_of_mem _ h
        by_cases hm : '[' ∈ takeUntilSpecial t
        · rw [if_pos (hne.mpr hm)]
          rw [if_pos hm] at ih
          simp [stripBr, List.takeWhile_cons, hb, hs] at ih ⊢
          exact ih
        · rw [if_neg (fun h => hm (hne.mp h))]
          rw [if_neg hm] at ih
          simp [List.takeWhile_cons, hb, hs] at ih ⊢
          exact ih

theorem loopQ_step (ps : List Pkg) (f : Nat) (st st' : CState) (k0 : List Char)
    (vs : List (List Char)) (t : QMap) (hq : st.q = (k0, vs) :: t)
    (hp : procPkgs k0 f ps st = some st') :
    loopQ ps (f + 1) st = loopQ ps f ⟨alRemove st'.q k0, st'.rb⟩ := by
  rw [loopQ.eq_def]
  dsimp only
  rw [hq]
  dsimp only
  rw [hp]

theorem procValue_step_some (p : Pkg) (kk : List Char) (f i : Nat) (st : CState)
    (deps : List (List Char)) (h : i < ((alGet st.q kk).getD []).length)
    (hg : alGet p.extras (((alGet st.q kk).getD []).getD i []) = some deps) :
    procValue p kk (f + 1) i st = procValue p kk f (i + 1) (procDeps kk deps st) := by
  rw [procValue.eq_def]
  dsimp only
  rw [if_pos h, hg]

theorem procPkgs_cons_ne (k : List Char) (fuel : Nat) (p : Pkg) (rest : List Pkg)
    (st : CState) (h : ¬ lowerAll p.name = k) :
    procPkgs k fuel (p :: rest) st = procPkgs k fuel rest st := by
  rw [procPkgs.eq_2, if_neg h]

theorem procPkgs_cons_eq (k : List Char) (fuel : Nat) (p : Pkg) (rest : List Pkg)
    (st st' : CState) (h : lowerAll p.name = k) (hv : procValue p k fuel 0 st = some st') :
    procPkgs k fuel (p :: rest) st = procPkgs k fuel rest st' := by
  rw [procPkgs.eq_2, if_pos h, hv]

theorem c3_pvB0 (f : Nat) :
    procValue ⟨"c".data, [], [("y".data, ["b[x]".data])]⟩ ("c".data) (f + 1) 0 stB0
      = some stMidCB := by
  rw [procValue_step_some _ _ _ _ _ (["b[x]".data]) (by decide) (by decide)]
  rw [show procDeps ("c".data) (["b[x]".data]) stB0 = stMidCB from by decide]
  exact procValue_done _ _ _ _ _ (by decide)

theorem c3_pvB (f : Nat) :
    procValue ⟨"c".data, [], [("y".data, ["b[x]".data])]⟩ ("c".data) (f + 1) 0 stB
      = some stMidCB := by
  rw [procValue_step_some _ _ _ _ _ (["b[x]".data]) (by decide) (by decide)]
  rw [show procDeps ("c".data) (["b[x]".data]) stB = stMidCB from by decide]
  exact procValue_done _ _ _ _ _ (by decide)

theorem c3_pvA (f : Nat) :
    procValue ⟨"b".data, ["c[y]".data], [("x".data, ["c[y]".data])]⟩ ("b".data) (f + 1) 0 stA
      = some stMidBC := by
  rw [procValue_step_some _ _ _ _ _ (["c[y]".data]) (by decide) (by decide)]
  rw [show procDeps ("b".data) (["c[y]".data]) stA = stMidBC from by decide]
  exact procValue_done _ _ _ _ _ (by decide)

theorem c3_ppB0 (f : Nat) :
    procPkgs ("c".data) (f + 1) pkgsC3 stB0 = some stMidCB := by
  show procPkgs _ _ (⟨"b".data, ["c[y]".data], [("x".data, ["c[y]".data])]⟩ ::
    ⟨"c".data, [], [("y".data, ["b[x]".data])]⟩ :: []) _ = _
  rw [procPkgs_cons_ne _ _ _ _ _ (by decide),
      procPkgs_cons_eq _ _ _ _ _ stMidCB (by decide) (c3_pvB0 f)]
  rfl

theorem c3_ppB (f : Nat) :
    procPkgs ("c".data) (f + 1) pkgsC3 stB = some stMidCB := by
  show procPkgs _ _ (⟨"b".data, ["c[y]".data], [("x".data, ["c[y]".data])]⟩ ::
    ⟨"c".data, [], [("y".data, ["b[x]".data])]⟩ :: []) _ = _
  rw [procPkgs_cons_ne _ _ _ _ _ (by decide),
      procPkgs_cons_eq _ _ _ _ _ stMidCB (by decide) (c3_pvB f)]
  rfl

theorem c3_ppA (f : Nat) :
    procPkgs ("b".data) (f + 1) pkgsC3 stA = some stMidBC := by
  show procPkgs _ _ (⟨"b".data, ["c[y]".data], [("x".data, ["c[y]".data])]⟩ ::
    ⟨"c".data, [], [("y".data, ["b[x]".data])]⟩ :: []) _ = _
  rw [procPkgs_cons_eq _ _ _ _ _ stMidBC (by decide) (c3_pvA f),
      procPkgs_cons_ne _ _ _ _ _ (by decide)]
  rfl

theorem c3_iterB0 (f : Nat) : loopQ pkgsC3 (f + 2) stB0 = loopQ pkgsC3 (f + 1) stA := by
  rw [loopQ_step pkgsC3 (f + 1) stB0 stMidCB ("c".data) (["y".data]) [] (by rfl) (c3_ppB0 f)]
  rw [show (⟨alRemove stMidCB.q ("c".data), stMidCB.rb⟩ : CState) = stA from by decide]

theorem c3_iterB (f : Nat) : loopQ pkgsC3 (f + 2) stB = loopQ pkgsC3 (f + 1) stA := by
  rw [loopQ_step pkgsC3 (f + 1) stB stMidCB ("c".data) (["y".data]) [] (by rfl) (c3_ppB f)]
  rw [show (⟨alRemove stMidCB.q ("c".data), stMidCB.rb⟩ : CState) = stA from by decide]

theorem c3_iterA (f : Nat) : loopQ pkgsC3 (f + 2) stA = loopQ pkgsC3 (f + 1) stB := by
  rw [loopQ_step pkgsC3 (f + 1) stA stMidBC ("b".data) (["x".data]) [] (by rfl) (c3_ppA f)]
  rw [show (⟨alRemove stMidBC.q ("b".data), stMidBC.rb⟩ : CState) = stB from by decide]

theorem c3_cycle : ∀ f : Nat, loopQ pkgsC3 f stA = none ∧ loopQ pkgsC3 f stB = none := by
  intro f
  induction f with
  | zero => exact ⟨by decide, by decide⟩
  | succ f ih =>
    cases f with
    | zero => exact ⟨by decide, by decide⟩
    | succ g =>
      refine ⟨?_, ?_⟩
      · rw [c3_iterA g]
        exact ih.2
      · rw [c3_iterB g]
        exact ih.1

/-- Claim C1, counterexample: in the scenario where `a` requires `b[x]` and
`b`'s extra `x` contains `c`, the engine's index at key `c` is exactly the
singleton holding `b` — it does not contain `a`, the original requiring
package, contradicting the claim. -/
theorem C1_counterexample :
    get_packages_required_by 10 pkgsC1 = some rbC1 ∧
    "a".data ∉ rbEntry rbC1 ("c".data) := by decide

/-- Claim C1 as amended: when a pending work item is drained, every dependency
listed under a requested extra of the target package is recorded as a
requirement of the target package itself (the drain step records the drained
target's lowercased name as the requirer — `procDep` is invoked with that name
in phase 2); in the scenario where `a` requires `b[x]` and `b`'s extra `x`
contains `c`, the resulting index at key `c` therefore contains `b`. -/
theorem C1_amended :
    (∀ (k : List Char) (st : CState) (d : List Char),
        k ∈ rbEntry (procDep k st d).rb (depKey d)) ∧
    get_packages_required_by 10 pkgsC1 = some rbC1 ∧
    "b".data ∈ rbEntry rbC1 ("c".data) :=
  ⟨fun k st d => mem_procDep_self k st d, by decide, by decide⟩

/-- Claim C2, counterexample: on the line `a[b][c] y]z` the parser returns the
extras from the last bracket group of the dependency token and the tail after
the last `]` of the whole line, while the spec's wording (first bracket group,
tail right after its closing bracket) predicts a different triple. -/
theorem C2_counterexample :
    parse_requirement ("a[b][c] y]z".data) = .ok ("a".data, ["c".data], "z".data) ∧
    specRequirementTriple ("a[b][c] y]z".data) = ("a".data, ["b".data], "[c] y]z".data) ∧
    (("a".data, ["c".data], "z".data)
      : List Char × List (List Char) × List Char) ≠ ("a".data, ["b".data], "[c] y]z".data)
    := by decide

/-- Claim C2 as amended, restricted to the lines whose outcome the code
determines by fixed patterns or a literal interpolation: for every line whose
dependency token — the text up to the first of space, `;`, `!`, `~`, `<`, `=`,
`>` — contains `[`, the parser succeeds (this branch uses only fixed patterns)
with dependencyName = the token truncated at its first `[` (equivalently, the
line's text up to the first of the seven separators or `[`), requestedExtras =
the comma-split text between the token's last `[` and the first `]` after it,
and conditionTail = the text after the line's last `]` (the whole line when it
has none) with leading spaces and semicolons stripped.  For every line whose
token is bracket-free and free of regex-special characters, the parser succeeds
with the token itself, no extras, and the text after the token with leading
spaces and semicolons stripped.  Lines whose bracket-free token contains a
regex-special character reach a pattern built from unescaped text (cf. C5) and
are outside this description.  The four concrete forms of the claim parse to
exactly the expected triples. -/
theorem C2_amended :
    (∀ l : List Char, '[' ∈ takeUntilSpecial l →
        parse_requirement l
          = .ok (l.takeWhile (fun c => !isSpecial c && c ≠ '['),
                 splitComma (extraOf (takeUntilSpecial l)), condAfterLastRBracket l)) ∧
    (∀ l : List Char, '[' ∉ takeUntilSpecial l → reLiteral (takeUntilSpecial l) = true →
        parse_requirement l
          = .ok (takeUntilSpecial l, [],
                 stripSeps (l.drop (takeUntilSpecial l).length))) ∧
    parse_requirement ("name".data) = .ok ("name".data, [], []) ∧
    parse_requirement ("name[extra1,extra2]".data)
      = .ok ("name".data, ["extra1".data, "extra2".data], []) ∧
    parse_requirement ("name>=1.0".data) = .ok ("name".data, [], ">=1.0".data) ∧
    parse_requirement ("name[extra]>=1.0; extra == \"x\"".data)
      = .ok ("name".data, ["extra".data], ">=1.0; extra == \"x\"".data) := by
  refine ⟨?_, ?_, by decide, by decide, by decide, by decide⟩
  · intro l hb
    simp only [parse_requirement]
    rw [if_pos hb]
    have hn := nameUnify l
    rw [if_pos hb] at hn
    rw [hn]
  · intro l hb hs
    simp only [parse_requirement]
    rw [if_neg hb]
    unfold stripDepConds depPatternFail
    rw [if_pos hs]

/-- Witness for the amended claim C2: both universal parts instantiated, at the
lines `a[x]b` and `nm>=2`. -/
theorem C2_witness :
    parse_requirement ("a[x]b".data)
      = .ok (("a[x]b".data).takeWhile (fun c => !isSpecial c && c ≠ '['),
             splitComma (extraOf (takeUntilSpecial ("a[x]b".data))),
             condAfterLastRBracket ("a[x]b".data)) ∧
    parse_requirement ("nm>=2".data)
      = .ok (takeUntilSpecial ("nm>=2".data), [],
             stripSeps (("nm>=2".data).drop (takeUntilSpecial ("nm>=2".data)).length)) :=
  ⟨C2_amended.1 ("a[x]b".data) (by decide),
   C2_amended.2.1 ("nm>=2".data) (by decide) (by decide)⟩

/-- Claim C3: the drain loop of the closure engine does not terminate on the
cyclic-extras package list (`b` requires `c[y]`, `b.extras.x` pulls in `c[y]`,
`c.extras.y` pulls in `b[x]`) — after the first iteration the pending map
alternates forever between the two one-entry states, each iteration re-adding
the key the other one deleted, so no finite iteration budget ever drains the
queue. -/
theorem C3_nontermination :
    ∀ fuel : Nat, get_packages_required_by fuel pkgsC3 = none := by
  intro fuel
  show loopQ pkgsC3 fuel (phase1 pkgsC3) = none
  rw [show phase1 pkgsC3 = stB0 from by decide]
  cases fuel with
  | zero => decide
  | succ f =>
    cases f with
    | zero => decide
    | succ g =>
      rw [c3_iterB0 g]
      exact (c3_cycle (g + 1)).1

/-- Claim C4, counterexample: with `a` requiring `b[x]` and `d` requiring
`b[y]`, both enqueued for `b` before the drain, the extra `x` from the earlier
enqueue IS expanded — `p` (pulled in only by `b`'s extra `x`) gets `b` recorded
as a requirer, contradicting the claim that only the last enqueued entry is
processed. -/
theorem C4_counterexample :
    get_packages_required_by 10 pkgsC4 = some rbC4 ∧
    "b".data ∈ rbEntry rbC4 ("p".data) := by decide

/-- Claim C4 as amended: when the same target package name is enqueued twice
with different extra sets before the first is drained, the pending map merges
the two sets (each part not already present is appended), so the extras from
both enqueues are processed when the name is drained; in the two-requirer
scenario both `p` and `q` end up with requirer `b`. -/
theorem C4_amended :
    (∀ (q : QMap) (dep : List Char) (ps1 ps2 : List (List Char)) (x : List Char),
        x ∈ ps1 ∨ x ∈ ps2 →
        x ∈ rbEntry (enqueueParts (enqueueParts q dep ps1) dep ps2) dep) ∧
    get_packages_required_by 10 pkgsC4 = some rbC4 ∧
    "b".data ∈ rbEntry rbC4 ("p".data) ∧ "b".data ∈ rbEntry rbC4 ("q".data) := by
  refine ⟨?_, by decide, by decide, by decide⟩
  intro q dep ps1 ps2 x h
  rcases h with h | h
  · exact mem_enqueueParts _ _ _ _ (Or.inl (mem_enqueueParts _ _ _ _ (Or.inr h)))
  · exact mem_enqueueParts _ _ _ _ (Or.inr h)

/-- Witness for the amended claim C4: the part `x` of the first enqueue is
still pending after a second enqueue for the same name. -/
theorem C4_witness :
    "x".data ∈ rbEntry
      (enqueueParts (enqueueParts [] ("b".data) [("x".data)]) ("b".data) [("y".data)])
      ("b".data) :=
  C4_amended.1 [] ("b".data) [("x".data)] [("y".data)] ("x".data) (Or.inl (by decide))

/-- Claim C5: both parsers abort with a certainly-raising failure on a
requirement line whose extracted dependency name contains an unmatched `(` —
the name is interpolated unescaped into a regex pattern, so `re.compile`
raises `re.error` and the exception propagates — contradicting the stated
no-exception guarantee. -/
theorem C5_regex_error :
    parse_metadata_lines [("Requires-Dist: foo(bar".data)] = .error ReFail.raised ∧
    process_requires_file [("foo(bar".data)] [] [] = .error ReFail.raised := by decide

/-- Claim C6, counterexample: on the legacy five-line scenario the parser binds
`pkgA` (and `pkgC`) to the empty-dict placeholder it was initialized with, not
to the empty condition string the claim expects. -/
theorem C6_counterexample :
    process_requires_file c6lines [] []
      = .ok ([("pkgA".data, CondVal.emptyDict), ("pkgC".data, CondVal.emptyDict)],
             [("extra1".data, [("pkgB".data, CondVal.str (">=2.0".data))])]) ∧
    alGet [("pkgA".data, CondVal.emptyDict), ("pkgC".data, CondVal.emptyDict)] ("pkgA".data)
      ≠ some (CondVal.str []) := by decide

/-- Claim C6 as amended: the legacy scenario yields requires with exactly the
keys `pkgA` and `pkgC`, each bound to the empty-dict placeholder the parser
initializes fresh entries with (a condition string replaces it only when
nonempty), and extras with exactly `extra1` mapping `pkgB` to `>=2.0`; the
empty `[]` header did reset filing back to the unconditional requires set. -/
theorem C6_amended :
    process_requires_file c6lines [] []
      = .ok ([("pkgA".data, CondVal.emptyDict), ("pkgC".data, CondVal.emptyDict)],
             [("extra1".data, [("pkgB".data, CondVal.str (">=2.0".data))])]) := by decide

/-- Claim C7: whenever the closure engine returns an index, every package `p`
and every dependency key `d` of its requires mapping satisfy: the lowercased
name of `p` is a member of the index entry at `d`'s lowercase-normalized,
bracket-stripped key. -/
theorem C7_requires_membership (fuel : Nat) (packages : List Pkg) (rb : RBMap)
    (h : get_packages_required_by fuel packages = some rb) :
    ∀ p ∈ packages, ∀ d ∈ p.requires, lowerAll p.name ∈ rbEntry rb (depKey d) :=
  fun p hp d hd => run_mem fuel packages rb h p hp d hd

/-- Witness for claim C7: the case-insensitivity scenario `App` requires
`Lib`. -/
theorem C7_witness :
    get_packages_required_by 5 pkgsC7w = some [("lib".data, ["app".data])] ∧
    lowerAll ("App".data) ∈ rbEntry [("lib".data, ["app".data])] (depKey ("Lib".data)) :=
  ⟨by decide,
   C7_requires_membership 5 pkgsC7w [("lib".data, ["app".data])] (by decide)
     ⟨"App".data, ["Lib".data], []⟩ (by decide) ("Lib".data) (by decide)⟩

/-- Claim C8: declaring the same dependency in two successive `Requires-Dist`
lines, first with condition `a` and then with condition `b`, leaves a single
requires entry whose stored condition is `a;b`. -/
theorem C8_condition_merge :
    parse_metadata_lines [("Requires-Dist: foo; a".data)]
      = .ok ⟨[], [], [], [("foo".data, CondVal.str ("a".data))], []⟩ ∧
    parse_metadata_lines [("Requires-Dist: foo; a".data), ("Requires-Dist: foo; b".data)]
      = .ok ⟨[], [], [], [("foo".data, CondVal.str ("a;b".data))], []⟩ := by decide

/-- Claim C9: the metadata scanner stops at the first blank line — scanning any
line list that reaches a blank line gives the same result as scanning only the
prefix before it — and the record `Name: foo`, blank, `Requires-Dist: bar`
yields an empty requires mapping. -/
theorem C9_blank_line_stops :
    (∀ (pre post : List (List Char)) (st : PkgInfo),
        metaLinesAux (pre ++ ([] : List Char) :: post) st = metaLinesAux pre st) ∧
    parse_metadata_lines [("Name: foo".data), ([] : List Char), ("Requires-Dist: bar".data)]
      = .ok ⟨"foo".data, [], [], [], []⟩ := by
  constructor
  · intro pre
    induction pre with
    | nil =>
      intro post st
      rfl
    | cons l t ih =>
      intro post st
      show metaLinesAux (l :: (t ++ [] :: post)) st = metaLinesAux (l :: t) st
      cases hst : metaLineStep st l <;> simp [metaLinesAux, hst, ih]
  · decide

/-- Claim C10: a package whose requires mapping names the package itself
(case-insensitively, after removing a bracketed extras part) is a key of the
resulting index, and `is_package_required` answers true for it. -/
theorem C10_self_dependency (fuel : Nat) (packages : List Pkg) (rb : RBMap) (p : Pkg)
    (d : List Char) (h : get_packages_required_by fuel packages = some rb)
    (hp : p ∈ packages) (hd : d ∈ p.requires) (hk : depKey d = lowerAll p.name) :
    (alGet rb (lowerAll p.name)).isSome ∧ is_package_required p rb = true := by
  have hm := run_mem fuel packages rb h p hp d hd
  rw [hk] at hm
  refine ⟨mem_rbEntry_isSome _ _ _ hm, ?_⟩
  unfold is_package_required
  exact mem_rbEntry_isSome _ _ _ hm

/-- Witness for claim C10: `Spam` requires `spam`. -/
theorem C10_witness :
    get_packages_required_by 5 pkgsC10w = some [("spam".data, ["spam".data])] ∧
    ((alGet [("spam".data, ["spam".data])] (lowerAll ("Spam".data))).isSome ∧
      is_package_required ⟨"Spam".data, ["spam".data], []⟩
        [("spam".data, ["spam".data])] = true) :=
  ⟨by decide,
   C10_self_dependency 5 pkgsC10w [("spam".data, ["spam".data])]
     ⟨"Spam".data, ["spam".data], []⟩ ("spam".data) (by decide) (by decide) (by decide)
     (by decide)⟩

end Pipinfo
